import Mathlib

/-!
Shallow embedding of `src/magnificent7_cash_secured_puts_roi_v6.py`.

Money amounts and percentages are modelled as rationals (`ℚ`); calendar
dates are modelled as integers counting days from an epoch whose day 0 is
a Monday, so that Python's `date.weekday()` (Monday = 0) becomes
`d.emod 7`.  A value that may be absent (a missing pandas field, Python
`None`) is an `Option ℚ`; Python truthiness of such a value is `truthy`.
Data fetches that may raise are functions returning `Option`, with `none`
standing for the raised exception that the source catches.
-/

/-- The strategy selector of the app (`st.selectbox("Select Strategy", ...)`):
`"Cash Secured Put"` or `"Covered Call"`. -/
inductive Strategy
  | cashSecuredPut
  | coveredCall
deriving DecidableEq

/-- One option contract row of a chain: `strike`, `bid`, `ask`, `lastPrice`
columns used by `analyze_options`.  `bid`/`ask` may be absent. -/
structure OptionQuote where
  strike : ℚ
  bid : Option ℚ
  ask : Option ℚ
  lastPrice : ℚ
deriving DecidableEq

/-- Python truthiness of a possibly-absent number: absent and `0` are falsy
(line 67: `if selected["bid"] and selected["ask"]`). -/
def truthy (v : Option ℚ) : Bool :=
  match v with
  | none => false
  | some x => x != 0

/-- Round a rational to the nearest integer, ties to even — the rounding mode
of Python's `round`. -/
def roundHalfEven (x : ℚ) : ℤ :=
  let f := ⌊x⌋
  let r := x - (f : ℚ)
  if r < 1 / 2 then f
  else if 1 / 2 < r then f + 1
  else if f % 2 = 0 then f else f + 1

/-- Python `round(x, 2)` (line 61). -/
def round2 (x : ℚ) : ℚ := (roundHalfEven (x * 100) : ℚ) / 100

/-- Zero-padded two-digit decimal string for a value below 100. -/
def pad2 (m : Nat) : String := if m < 10 then "0" ++ Nat.repr m else Nat.repr m

/-- Render an integer number of cents as a decimal string with two places. -/
def fmtCents (n : ℤ) : String :=
  if n < 0 then "-" ++ Nat.repr ((-n).toNat / 100) ++ "." ++ pad2 ((-n).toNat % 100)
  else Nat.repr (n.toNat / 100) ++ "." ++ pad2 (n.toNat % 100)

/-- The app's `fmt` helper (lines 8–9): `f"{x:.2f}"`, i.e. the number rounded
half-even to two decimal places and rendered as a string. -/
def fmt (x : ℚ) : String := fmtCents (roundHalfEven (x * 100))

/-- The target strike of `analyze_options` (line 61):
`round(price * (1 - m/100), 2)` for puts, `round(price * (1 + m/100), 2)`
for calls. -/
def targetStrike (s : Strategy) (price m : ℚ) : ℚ :=
  match s with
  | .cashSecuredPut => round2 (price * (1 - m / 100))
  | .coveredCall => round2 (price * (1 + m / 100))

/-- The strike filter of line 62: `strike <= target` for puts,
`strike >= target` for calls. -/
def eligibleB (s : Strategy) (t : ℚ) (q : OptionQuote) : Bool :=
  match s with
  | .cashSecuredPut => q.strike ≤ t
  | .coveredCall => t ≤ q.strike

/-- Lines 61–65 of `analyze_options`: filter the chain by the target strike
and take `iloc[-1]` (puts) or `iloc[0]` (calls); `none` models the
`options_filtered.empty` → `continue` path. -/
def selectCandidate (s : Strategy) (price m : ℚ) (options : List OptionQuote) :
    Option OptionQuote :=
  let filtered := options.filter (eligibleB s (targetStrike s price m))
  match s with
  | .cashSecuredPut => filtered.getLast?
  | .coveredCall => filtered.head?

/-- Line 67: `(bid + ask) / 2 if selected["bid"] and selected["ask"] else
selected["lastPrice"]`. -/
def premiumOf (q : OptionQuote) : ℚ :=
  if truthy q.bid && truthy q.ask then (q.bid.getD 0 + q.ask.getD 0) / 2
  else q.lastPrice

/-- Line 70: `(abs_roi / days_to_exp) * 365 if days_to_exp > 0 else 0`. -/
def annRoiOf (a : ℚ) (days : ℤ) : ℚ :=
  if 0 < days then a / (days : ℚ) * 365 else 0

/-- The three figures computed at lines 67–70 for a selected quote. -/
structure RoiFigures where
  premium : ℚ
  absRoi : ℚ
  annRoi : ℚ
deriving DecidableEq

/-- Lines 67–70 of `analyze_options`: premium, `abs_roi = premium / strike
* 100`, and the guarded annualized ROI. -/
def roiCalc (q : OptionQuote) (daysToExp : ℤ) : RoiFigures :=
  let p := premiumOf q
  let a := p / q.strike * 100
  { premium := p, absRoi := a, annRoi := annRoiOf a daysToExp }

/-- Python `date.weekday()` under the epoch convention of this file
(day 0 is a Monday): Monday = 0, …, Friday = 4. -/
def weekday (d : ℤ) : ℤ := d % 7

/-- `today + timedelta((4 - today.weekday()) % 7)` (line 16 with `i = 0`):
the first Friday on or after `today`. -/
def firstFridayOnOrAfter (today : ℤ) : ℤ := today + (4 - weekday today) % 7

/-- `get_weekly_expirations` (lines 12–18): `n` dates, the `i`-th being
`today + (4 - weekday today) % 7 + 7 * i`. -/
def getWeeklyExpirations (n : Nat) (today : ℤ) : List ℤ :=
  (List.range n).map (fun (i : ℕ) => firstFridayOnOrAfter today + 7 * (i : ℤ))

/-- Line 68, faithfully:
`(datetime.strptime(expiration, "%Y-%m-%d") - datetime.today()).days`.
`strptime` yields midnight of the expiration day `e` while `datetime.today()`
is the instant `today + tod`, where `tod ∈ [0, 1)` is the fraction of the
reference day that has already elapsed; `timedelta.days` is the floor of the
difference measured in days.  At `tod = 0` (a midnight run) this equals the
calendar-day difference `e - today`; at any later instant it is one less. -/
def daysToExpAt (e today : ℤ) (tod : ℚ) : ℤ := ⌊(e : ℚ) - (today : ℚ) - tod⌋

/-- Python's `<` on strings, character by character on code points.  This is
the comparison `pandas.sort_values` applies to the object-dtype column
`"Ann ROI (%)"`, whose entries are the strings produced by `fmt`. -/
def charsLt : List Char → List Char → Bool
  | [], [] => false
  | [], _ :: _ => true
  | _ :: _, [] => false
  | a :: as, b :: bs =>
    if a.toNat < b.toNat then true
    else if b.toNat < a.toNat then false
    else charsLt as bs

/-- `strLt a b` is Python `a < b` on strings. -/
def strLt (a b : String) : Bool := charsLt a.data b.data

/-- The fundamentals dictionary `stock.info` as used by `analyze_options`:
each key that the code reads through `info.get`, `none` when the key is
missing. -/
structure TickerInfo where
  targetMeanPrice : Option ℚ
  dividendYield : Option ℚ
  trailingEps : Option ℚ
  recommendationMean : Option ℚ
  earningsQuarterlyGrowth : Option ℚ
  earningsDate : Option String
  recommendationKey : Option String
  sector : Option String
  industry : Option String
deriving DecidableEq

/-- One expiration's option chain: the `puts` and `calls` frames. -/
structure OptChain where
  puts : List OptionQuote
  calls : List OptionQuote
deriving DecidableEq

/-- The market-data gateway (`yfinance`).  `tickerData t` is the fundamentals
and the last close of the 5-day history for `t`; `optChain t e` is the chain
for expiration `e`.  `none` models a raised exception / missing data, which
the source catches (`except ... continue` / `except ... return []`). -/
structure Gateway where
  tickerData : String → Option (TickerInfo × ℚ)
  optChain : String → ℤ → Option OptChain

/-- The dictionary built at lines 72–91, one output row.  String fields hold
exactly what the code stores: `fmt`-formatted numbers for the numeric
columns, raw strings elsewhere.  `daysToExp` and `expiration` are the only
non-string payloads the code stores. -/
structure ResultRow where
  ticker : String
  strategy : Strategy
  currentPrice : String
  strikePrice : String
  analystTarget : String
  premium : String
  daysToExp : ℤ
  absRoi : String
  annRoi : String
  divYield : String
  nextEarnings : String
  recommendation : String
  epsTTM : String
  epsTrend : String
  overallScore : String
  expiration : ℤ
  sector : String
  industry : String
deriving DecidableEq

/-- Lines 72–91: assemble the row dictionary for one selected contract. -/
def buildRow (ticker : String) (strategy : Strategy) (info : TickerInfo)
    (price strike premium absR annR : ℚ) (days expiration : ℤ) : ResultRow :=
  { ticker := ticker
    strategy := strategy
    currentPrice := fmt price
    strikePrice := fmt strike
    analystTarget := fmt (info.targetMeanPrice.getD 0)
    premium := fmt premium
    daysToExp := days
    absRoi := fmt absR
    annRoi := fmt annR
    divYield := fmt (info.dividendYield.getD 0 * 100)
    nextEarnings := info.earningsDate.getD "N/A"
    recommendation := info.recommendationKey.getD "N/A"
    epsTTM := fmt (info.trailingEps.getD 0)
    epsTrend := if 0 < info.earningsQuarterlyGrowth.getD 0 then "Beat" else "Miss"
    overallScore := fmt (info.recommendationMean.getD 0)
    expiration := expiration
    sector := info.sector.getD "N/A"
    industry := info.industry.getD "N/A" }

/-- The side of the chain line 60 picks: `puts` for `"Cash Secured Put"`,
`calls` otherwise. -/
def sideOf (s : Strategy) (ch : OptChain) : List OptionQuote :=
  match s with
  | .cashSecuredPut => ch.puts
  | .coveredCall => ch.calls

/-- The body of the inner `for expiration in expirations` loop (lines 57–94):
fetch the chain, select a candidate, compute the ROI figures, build a row.
`none` is a skipped expiration (chain fetch failed, or no eligible strike).
Days to expiration is taken here at day granularity, `e - today`, i.e. the
value of line 68 for a midnight run (`daysToExpAt e today 0`); the
time-of-day-sensitive form of line 68 is `daysToExpAt`, which differs by one
at any later run instant. -/
def processExpiration (g : Gateway) (ticker : String) (info : TickerInfo)
    (price : ℚ) (s : Strategy) (m : ℚ) (today e : ℤ) : Option ResultRow :=
  match g.optChain ticker e with
  | none => none
  | some ch =>
    match selectCandidate s price m (sideOf s ch) with
    | none => none
    | some sel =>
      let days := e - today
      let r := roiCalc sel days
      some (buildRow ticker s info price sel.strike r.premium r.absRoi r.annRoi days e)

/-- `analyze_options` (lines 46–97): fetch fundamentals and price; drop the
ticker when the fetch fails or the price is out of bounds; otherwise collect
the rows of the surviving expirations. -/
def analyzeOptions (g : Gateway) (ticker : String) (expirations : List ℤ)
    (s : Strategy) (m lo hi : ℚ) (today : ℤ) : List ResultRow :=
  match g.tickerData ticker with
  | none => []
  | some (info, price) =>
    if price < lo ∨ hi < price then []
    else expirations.filterMap (processExpiration g ticker info price s m today)

/-- Insert a row into a list that is already in weakly descending order of
the stored `"Ann ROI (%)"` string: skip rows with a strictly greater key,
so that among equal keys the inserted (earlier-encountered) row stays first. -/
def insertRowDesc (r : ResultRow) : List ResultRow → List ResultRow
  | [] => [r]
  | x :: xs =>
    if strLt r.annRoi x.annRoi then x :: insertRowDesc r xs
    else r :: x :: xs

/-- `df.sort_values(by="Ann ROI (%)", ascending=False)` (line 113), modelled
as a stable sort, in descending order of the Python string comparison on the
stored column values. -/
def sortRowsDesc : List ResultRow → List ResultRow
  | [] => []
  | x :: xs => insertRowDesc x (sortRowsDesc xs)

/-- The ticker loop plus the display step (lines 105–113): concatenate every
ticker's rows in encounter order, then sort by the stored annualized-ROI
column, descending. -/
def runAnalysis (g : Gateway) (tickers : List String) (expirations : List ℤ)
    (s : Strategy) (m lo hi : ℚ) (today : ℤ) : List ResultRow :=
  sortRowsDesc (tickers.flatMap (fun t => analyzeOptions g t expirations s m lo hi today))

/-! ### Helper lemmas -/

theorem fmt_eq_of {x : ℚ} {n : ℤ} (h : roundHalfEven (x * 100) = n) :
    fmt x = fmtCents n := by rw [fmt, h]

theorem fmt_zero : fmt 0 = "0.00" :=
  (fmt_eq_of (n := 0) (by norm_num [roundHalfEven])).trans (by decide)

/-- A fundamentals record with every key missing. -/
def emptyInfo : TickerInfo :=
  { targetMeanPrice := none
    dividendYield := none
    trailingEps := none
    recommendationMean := none
    earningsQuarterlyGrowth := none
    earningsDate := none
    recommendationKey := none
    sector := none
    industry := none }

/-! ### C2 — ROI Calculator -/

/-- C2: for every quote with positive strike and every integer `daysToExp`,
the absolute ROI is exactly `premium / strike * 100`, and the annualized ROI
is `absROI / daysToExp * 365` when `daysToExp > 0` and `0` otherwise. -/
theorem roiCalculator_formulas (q : OptionQuote) (days : ℤ) (_h : 0 < q.strike) :
    (roiCalc q days).absRoi = (roiCalc q days).premium / q.strike * 100 ∧
    (0 < days → (roiCalc q days).annRoi = (roiCalc q days).absRoi / (days : ℚ) * 365) ∧
    (days ≤ 0 → (roiCalc q days).annRoi = 0) := by
  refine ⟨rfl, fun hd => ?_, fun hd => ?_⟩
  · simp only [roiCalc, annRoiOf, if_pos hd]
  · simp only [roiCalc, annRoiOf, if_neg (not_lt.mpr hd)]

theorem roiCalculator_formulas_witness :
    (0 : ℚ) < (⟨95, some 2, some (11 / 5), 0⟩ : OptionQuote).strike ∧
    ((roiCalc ⟨95, some 2, some (11 / 5), 0⟩ 30).absRoi
        = (roiCalc ⟨95, some 2, some (11 / 5), 0⟩ 30).premium / 95 * 100 ∧
      (0 < (30 : ℤ) → (roiCalc ⟨95, some 2, some (11 / 5), 0⟩ 30).annRoi
        = (roiCalc ⟨95, some 2, some (11 / 5), 0⟩ 30).absRoi / ((30 : ℤ) : ℚ) * 365) ∧
      ((30 : ℤ) ≤ 0 → (roiCalc ⟨95, some 2, some (11 / 5), 0⟩ 30).annRoi = 0)) :=
  ⟨by norm_num, roiCalculator_formulas ⟨95, some 2, some (11 / 5), 0⟩ 30 (by norm_num)⟩

/-! ### C3 — Premium rule -/

/-- C3: the premium is `(bid + ask) / 2` when both bid and ask are present
and non-zero, and `lastPrice` exactly when either is zero or absent. -/
theorem premiumRule (q : OptionQuote) :
    (∀ b a, q.bid = some b → q.ask = some a → b ≠ 0 → a ≠ 0 →
      premiumOf q = (b + a) / 2) ∧
    (q.bid = none ∨ q.ask = none ∨ q.bid = some 0 ∨ q.ask = some 0 →
      premiumOf q = q.lastPrice) := by
  constructor
  · intro b a hb ha hb0 ha0
    simp [premiumOf, truthy, hb, ha, hb0, ha0]
  · intro h
    rcases h with h | h | h | h <;> simp [premiumOf, truthy, h]

theorem premiumRule_witness :
    premiumOf ⟨95, some 2, some (11 / 5), 7⟩ = 21 / 10 ∧
    premiumOf ⟨95, some 0, some (11 / 5), 7⟩ = 7 := by
  constructor
  · have h := (premiumRule ⟨95, some 2, some (11 / 5), 7⟩).1 2 (11 / 5) rfl rfl
      (by norm_num) (by norm_num)
    rw [h]; norm_num
  · exact (premiumRule ⟨95, some 0, some (11 / 5), 7⟩).2 (Or.inr (Or.inr (Or.inl rfl)))

theorem pairwiseLtMapRange (c : ℤ) (n : ℕ) :
    ((List.range n).map (fun (i : ℕ) => c + 7 * (i : ℤ))).Pairwise (· < ·) := by
  refine List.pairwise_map.mpr ?_
  refine (List.sorted_lt_range n).imp ?_
  intro a b hab
  have hab' : (a : ℤ) < b := by exact_mod_cast hab
  linarith

/-! ### C6 — Expiration Generator -/

/-- C6: for every `n` and reference day, the generator yields exactly `n`
dates, the `i`-th being the first Friday on or after today plus `7*i` days;
the sequence is strictly ascending, duplicate-free, and every date is a
Friday (`weekday = 4`); the first Friday lies within six days of today. -/
theorem expirationGenerator_correct (n : Nat) (today : ℤ) :
    (getWeeklyExpirations n today).length = n ∧
    getWeeklyExpirations n today
      = (List.range n).map (fun (i : ℕ) => firstFridayOnOrAfter today + 7 * (i : ℤ)) ∧
    (getWeeklyExpirations n today).Pairwise (· < ·) ∧
    (getWeeklyExpirations n today).Nodup ∧
    (getWeeklyExpirations n today).all (fun d => weekday d == 4) = true ∧
    today ≤ firstFridayOnOrAfter today ∧
    firstFridayOnOrAfter today ≤ today + 6 ∧
    weekday (firstFridayOnOrAfter today) = 4 := by
  have hpw : (getWeeklyExpirations n today).Pairwise (· < ·) :=
    pairwiseLtMapRange (firstFridayOnOrAfter today) n
  refine ⟨by rw [getWeeklyExpirations, List.length_map, List.length_range],
    rfl, hpw, hpw.imp ne_of_lt, ?_, ?_, ?_, ?_⟩
  · rw [List.all_eq_true]
    intro d hd
    simp only [getWeeklyExpirations, List.mem_map, List.mem_range] at hd
    obtain ⟨i, _, rfl⟩ := hd
    simp only [beq_iff_eq, weekday, firstFridayOnOrAfter]
    omega
  · simp only [firstFridayOnOrAfter, weekday]; omega
  · simp only [firstFridayOnOrAfter, weekday]; omega
  · simp only [firstFridayOnOrAfter, weekday]; omega

/-! ### C1 — Candidate Selector -/

/-- An option chain sorted ascending by strike. -/
def strikeAsc (options : List OptionQuote) : Prop :=
  options.Pairwise (fun a b => a.strike ≤ b.strike)

theorem pairwise_getLast?_max {α : Type} {R : α → α → Prop} :
    ∀ {l : List α} {a : α}, l.Pairwise R → l.getLast? = some a →
      ∀ b ∈ l, b = a ∨ R b a := by
  intro l
  induction l with
  | nil => intro a _ h; cases h
  | cons x xs ih =>
    intro a hp hl b hb
    cases xs with
    | nil =>
      simp only [List.getLast?_singleton, Option.some.injEq] at hl
      rcases List.mem_singleton.mp hb with rfl
      exact Or.inl hl
    | cons y ys =>
      have hl' : (y :: ys).getLast? = some a := by
        rwa [List.getLast?_cons_cons] at hl
      have hp' := List.pairwise_cons.mp hp
      rcases List.mem_cons.mp hb with rfl | hb
      · exact Or.inr (hp'.1 a (List.mem_of_getLast?_eq_some hl'))
      · exact ih hp'.2 hl' b hb

theorem pairwise_head?_min {α : Type} {R : α → α → Prop} {l : List α} {a : α}
    (hp : l.Pairwise R) (hl : l.head? = some a) : ∀ b ∈ l, b = a ∨ R a b := by
  cases l with
  | nil => cases hl
  | cons x xs =>
    intro b hb
    simp only [List.head?_cons, Option.some.injEq] at hl
    subst hl
    rcases List.mem_cons.mp hb with rfl | hb
    · exact Or.inl rfl
    · exact Or.inr ((List.pairwise_cons.mp hp).1 b hb)

/-- C1: on a strike-ascending chain and a positive price, the put target is
`round(price*(1-m/100), 2)` and the selected put is the eligible quote
(strike ≤ target) of maximal strike; the call target is
`round(price*(1+m/100), 2)` and the selected call is the eligible quote
(strike ≥ target) of minimal strike; the result is `none` exactly when no
quote is eligible, and a `none` result makes the expiration contribute no
row, without error. -/
theorem candidateSelector_correct (price m : ℚ) (_hp : 0 < price)
    (options : List OptionQuote) (hs : strikeAsc options) :
    (targetStrike .cashSecuredPut price m = round2 (price * (1 - m / 100)) ∧
      targetStrike .coveredCall price m = round2 (price * (1 + m / 100))) ∧
    (∀ q, selectCandidate .cashSecuredPut price m options = some q →
      q ∈ options ∧ q.strike ≤ targetStrike .cashSecuredPut price m ∧
      ∀ r ∈ options, r.strike ≤ targetStrike .cashSecuredPut price m →
        r.strike ≤ q.strike) ∧
    (selectCandidate .cashSecuredPut price m options = none ↔
      ∀ r ∈ options, ¬ r.strike ≤ targetStrike .cashSecuredPut price m) ∧
    (∀ q, selectCandidate .coveredCall price m options = some q →
      q ∈ options ∧ targetStrike .coveredCall price m ≤ q.strike ∧
      ∀ r ∈ options, targetStrike .coveredCall price m ≤ r.strike →
        q.strike ≤ r.strike) ∧
    (selectCandidate .coveredCall price m options = none ↔
      ∀ r ∈ options, ¬ targetStrike .coveredCall price m ≤ r.strike) ∧
    (∀ (g : Gateway) (tk : String) (info : TickerInfo) (s : Strategy)
      (today e : ℤ) (ch : OptChain), g.optChain tk e = some ch →
      selectCandidate s price m (sideOf s ch) = none →
      processExpiration g tk info price s m today e = none) := by
  refine ⟨⟨rfl, rfl⟩, ?_, ?_, ?_, ?_, ?_⟩
  · intro q hq
    have hmem : q ∈ options.filter
        (eligibleB .cashSecuredPut (targetStrike .cashSecuredPut price m)) :=
      List.mem_of_getLast?_eq_some hq
    have hmem' := List.mem_filter.mp hmem
    have helig : q.strike ≤ targetStrike .cashSecuredPut price m := by
      have := hmem'.2; simpa [eligibleB] using this
    refine ⟨hmem'.1, helig, fun r hr hrel => ?_⟩
    have hrf : r ∈ options.filter
        (eligibleB .cashSecuredPut (targetStrike .cashSecuredPut price m)) :=
      List.mem_filter.mpr ⟨hr, by simpa [eligibleB] using hrel⟩
    rcases pairwise_getLast?_max (hs.filter _) hq r hrf with rfl | h
    · exact le_refl _
    · exact h
  · rw [show selectCandidate .cashSecuredPut price m options
        = (options.filter
            (eligibleB .cashSecuredPut (targetStrike .cashSecuredPut price m))).getLast?
        from rfl,
      List.getLast?_eq_none_iff, List.filter_eq_nil_iff]
    simp [eligibleB]
  · intro q hq
    have hmem : q ∈ options.filter
        (eligibleB .coveredCall (targetStrike .coveredCall price m)) :=
      List.mem_of_mem_head? (Option.mem_def.mpr hq)
    have hmem' := List.mem_filter.mp hmem
    have helig : targetStrike .coveredCall price m ≤ q.strike := by
      have := hmem'.2; simpa [eligibleB] using this
    refine ⟨hmem'.1, helig, fun r hr hrel => ?_⟩
    have hrf : r ∈ options.filter
        (eligibleB .coveredCall (targetStrike .coveredCall price m)) :=
      List.mem_filter.mpr ⟨hr, by simpa [eligibleB] using hrel⟩
    rcases pairwise_head?_min (hs.filter _) hq r hrf with rfl | h
    · exact le_refl _
    · exact h
  · rw [show selectCandidate .coveredCall price m options
        = (options.filter
            (eligibleB .coveredCall (targetStrike .coveredCall price m))).head?
        from rfl,
      List.head?_eq_none_iff, List.filter_eq_nil_iff]
    simp [eligibleB]
  · intro g tk info s today e ch hch hsel
    simp [processExpiration, hch, hsel]

/-- The hand-built strike-ascending put chain of the spec's example. -/
def chain3 : List OptionQuote :=
  [⟨90, some 2, some (11 / 5), 0⟩, ⟨95, some 2, some (11 / 5), 0⟩,
    ⟨100, some 2, some (11 / 5), 0⟩]

theorem candidateSelector_correct_witness :
    (0 : ℚ) < 100 ∧ strikeAsc chain3 ∧
    (∀ q, selectCandidate .cashSecuredPut 100 5 chain3 = some q →
      q ∈ chain3 ∧ q.strike ≤ targetStrike .cashSecuredPut 100 5 ∧
      ∀ r ∈ chain3, r.strike ≤ targetStrike .cashSecuredPut 100 5 →
        r.strike ≤ q.strike) := by
  have hasc : strikeAsc chain3 := by
    norm_num [strikeAsc, chain3, List.pairwise_cons]
  exact ⟨by norm_num, hasc,
    (candidateSelector_correct 100 5 (by norm_num) chain3 hasc).2.1⟩

/-! ### Shared concrete-evaluation lemmas -/

theorem targetStrike_ex : targetStrike .cashSecuredPut 100 5 = 95 := by
  norm_num [targetStrike, round2, roundHalfEven]

theorem selectCandidate_ex : selectCandidate .cashSecuredPut 100 5 chain3
    = some ⟨95, some 2, some (11 / 5), 0⟩ := by
  norm_num [selectCandidate, targetStrike_ex, chain3, eligibleB, List.filter_cons,
    decide_eq_true_eq]

theorem premiumOf_ex : premiumOf ⟨95, some 2, some (11 / 5), 0⟩ = 21 / 10 := by
  norm_num [premiumOf, truthy, Bool.and_eq_true, bne_iff_ne]

theorem roiCalc_ex_abs : (roiCalc ⟨95, some 2, some (11 / 5), 0⟩ 30).absRoi = 42 / 19 := by
  simp only [roiCalc, premiumOf_ex]
  norm_num

theorem roiCalc_ex_ann : (roiCalc ⟨95, some 2, some (11 / 5), 0⟩ 30).annRoi = 511 / 19 := by
  simp only [roiCalc, premiumOf_ex, annRoiOf]
  norm_num

/-- A one-ticker gateway serving the spec's worked example: price 100,
put chain `chain3` at the single expiration on day 30. -/
def gwExample : Gateway :=
  { tickerData := fun t => if t = "XYZ" then some (emptyInfo, 100) else none
    optChain := fun t e => if t = "XYZ" ∧ e = 30 then some ⟨chain3, []⟩ else none }

theorem analyzeOptions_gwExample :
    analyzeOptions gwExample "XYZ" [30] .cashSecuredPut 5 0 1000 0
      = [buildRow "XYZ" .cashSecuredPut emptyInfo 100 95 (21 / 10) (42 / 19)
          (511 / 19) 30 30] := by
  norm_num [analyzeOptions, gwExample, processExpiration, sideOf, roiCalc,
    annRoiOf, selectCandidate_ex, premiumOf_ex, buildRow, emptyInfo,
    List.filterMap_cons, List.filterMap_nil]

theorem roundHalfEven_intCast (n : ℤ) : roundHalfEven (n : ℚ) = n := by
  norm_num [roundHalfEven]

theorem fmt_round2 (x : ℚ) : fmt (round2 x) = fmt x := by
  have h : round2 x * 100 = ((roundHalfEven (x * 100) : ℤ) : ℚ) := by
    rw [round2]; field_simp
  rw [fmt, h, roundHalfEven_intCast]
  rfl

/-! ### C5 — Stored precision -/

/-- C5 is false on the code: the row dictionary stores `fmt`-formatted
values.  In the worked example the pipeline stores `"2.21"` and `"2.10"` for
the absolute ROI and premium, although the computed absolute ROI is
`42/19 = 2.2105…`, which differs from `221/100` — and `fmt` cannot tell the
two apart, so the full-precision value is not recoverable from the row. -/
theorem storedPrecision_cex :
    (analyzeOptions gwExample "XYZ" [30] .cashSecuredPut 5 0 1000 0).map
        (fun r => r.absRoi) = ["2.21"] ∧
    (analyzeOptions gwExample "XYZ" [30] .cashSecuredPut 5 0 1000 0).map
        (fun r => r.premium) = ["2.10"] ∧
    (roiCalc ⟨95, some 2, some (11 / 5), 0⟩ 30).absRoi = 42 / 19 ∧
    (42 : ℚ) / 19 ≠ 221 / 100 ∧
    fmt (42 / 19) = fmt (221 / 100) := by
  have h1 : fmt (42 / 19) = "2.21" :=
    (fmt_eq_of (n := 221) (by norm_num [roundHalfEven])).trans (by decide)
  have h2 : fmt (21 / 10) = "2.10" :=
    (fmt_eq_of (n := 210) (by norm_num [roundHalfEven])).trans (by decide)
  have h3 : fmt (221 / 100) = "2.21" :=
    (fmt_eq_of (n := 221) (by norm_num [roundHalfEven])).trans (by decide)
  refine ⟨?_, ?_, roiCalc_ex_abs, by norm_num, h1.trans h3.symm⟩
  · rw [analyzeOptions_gwExample]; simp [buildRow, h1]
  · rw [analyzeOptions_gwExample]; simp [buildRow, h2]

/-- C5 (amended): every numeric value stored in a `ResultRow` is the
`fmt`-formatted string of the computed value — rounding to two decimal
places happens at row assembly, not only at the export boundary; the stored
string is exactly that of the half-even two-decimal rounding (`round2`) of
the full-precision value, so precision beyond two decimals is not stored.
ROI figures remain plain percentages. -/
theorem storedPrecision_amended (ticker : String) (s : Strategy)
    (info : TickerInfo) (price strike premium absR annR : ℚ) (days e : ℤ) :
    ((buildRow ticker s info price strike premium absR annR days e).currentPrice
        = fmt price ∧
      (buildRow ticker s info price strike premium absR annR days e).strikePrice
        = fmt strike ∧
      (buildRow ticker s info price strike premium absR annR days e).premium
        = fmt premium ∧
      (buildRow ticker s info price strike premium absR annR days e).absRoi
        = fmt absR ∧
      (buildRow ticker s info price strike premium absR annR days e).annRoi
        = fmt annR) ∧
    (∀ x : ℚ, fmt (round2 x) = fmt x) :=
  ⟨⟨rfl, rfl, rfl, rfl, rfl⟩, fmt_round2⟩

/-! ### C8 — End-to-end example -/

/-- C8 is false on the code: with price 100, moneyness 5 %, the example
chain, bid 2.00, ask 2.20 and 30 days to expiration, the code's absolute
ROI is `2.1/95*100 = 42/19 = 2.2105… %`, not the claimed `2.1053 %`, and
its annualized ROI is `511/19 = 26.8947… %`, not the claimed `25.61 %`
(both computed values exceed the claimed ones by far more than any
two-decimal rounding slack). -/
theorem endToEndExample_cex :
    targetStrike .cashSecuredPut 100 5 = 95 ∧
    selectCandidate .cashSecuredPut 100 5 chain3
      = some ⟨95, some 2, some (11 / 5), 0⟩ ∧
    (roiCalc ⟨95, some 2, some (11 / 5), 0⟩ 30).premium = 21 / 10 ∧
    (roiCalc ⟨95, some 2, some (11 / 5), 0⟩ 30).absRoi ≠ 21053 / 10000 ∧
    21053 / 10000 + 1 / 10 < (roiCalc ⟨95, some 2, some (11 / 5), 0⟩ 30).absRoi ∧
    (roiCalc ⟨95, some 2, some (11 / 5), 0⟩ 30).annRoi ≠ 2561 / 100 ∧
    2561 / 100 + 1 < (roiCalc ⟨95, some 2, some (11 / 5), 0⟩ 30).annRoi := by
  refine ⟨targetStrike_ex, selectCandidate_ex, premiumOf_ex, ?_, ?_, ?_, ?_⟩
  · rw [roiCalc_ex_abs]; norm_num
  · rw [roiCalc_ex_abs]; norm_num
  · rw [roiCalc_ex_ann]; norm_num
  · rw [roiCalc_ex_ann]; norm_num

/-- C8 (amended): on the worked example the pipeline computes target strike
95.00, selects strike 95, premium 2.10, absolute ROI `42/19 = 2.2105…%` and
annualized ROI `511/19 = 26.8947…%`. -/
theorem endToEndExample_amended :
    targetStrike .cashSecuredPut 100 5 = 95 ∧
    selectCandidate .cashSecuredPut 100 5 chain3
      = some ⟨95, some 2, some (11 / 5), 0⟩ ∧
    (roiCalc ⟨95, some 2, some (11 / 5), 0⟩ 30).premium = 21 / 10 ∧
    (roiCalc ⟨95, some 2, some (11 / 5), 0⟩ 30).absRoi = 42 / 19 ∧
    (roiCalc ⟨95, some 2, some (11 / 5), 0⟩ 30).annRoi = 511 / 19 ∧
    (22105 / 10000 < (42 : ℚ) / 19 ∧ (42 : ℚ) / 19 < 22106 / 10000) ∧
    (268947 / 10000 < (511 : ℚ) / 19 ∧ (511 : ℚ) / 19 < 268948 / 10000) :=
  ⟨targetStrike_ex, selectCandidate_ex, premiumOf_ex, roiCalc_ex_abs,
    roiCalc_ex_ann, by norm_num, by norm_num⟩

/-! ### C9 — Degenerate-input reachability -/

theorem daysToExpAt_eq (e today : ℤ) (tod : ℚ) (h0 : 0 ≤ tod) (h1 : tod < 1) :
    daysToExpAt e today tod = if tod = 0 then e - today else e - today - 1 := by
  rcases eq_or_lt_of_le h0 with rfl | hpos
  · rw [if_pos rfl, daysToExpAt]
    rw [show (e : ℚ) - (today : ℚ) - 0 = ((e - today : ℤ) : ℚ) by push_cast; ring]
    exact Int.floor_intCast _
  · rw [if_neg (by exact fun h => absurd h.symm (ne_of_lt hpos)), daysToExpAt]
    rw [Int.floor_eq_iff]
    constructor
    · push_cast; linarith
    · push_cast; linarith

/-- C9 is false on the code: line 68 floors the difference between the
expiration's midnight and the current instant, so when the reference day is
a Friday (day 4 under this file's epoch) the generator's first expiration is
that same day and `days_to_exp` is 0 at a midnight run and −1 at any later
time of day; even on a Thursday, any run after midnight computes 0 for the
next-day expiration.  In all these cases `days_to_exp` is not positive and
the annualized-ROI fallback branch is reached and returns 0. -/
theorem unreachableFallback_cex :
    ((4 : ℤ) ∈ getWeeklyExpirations 1 4 ∧
      weekday 4 = 4 ∧
      daysToExpAt 4 4 0 = 0 ∧
      daysToExpAt 4 4 (1 / 2) = -1 ∧
      ¬ (0 < daysToExpAt 4 4 (1 / 2)) ∧
      annRoiOf (42 / 19) (daysToExpAt 4 4 (1 / 2)) = 0) ∧
    ((4 : ℤ) ∈ getWeeklyExpirations 1 3 ∧
      weekday 3 = 3 ∧
      daysToExpAt 4 3 (1 / 2) = 0 ∧
      ¬ (0 < daysToExpAt 4 3 (1 / 2)) ∧
      annRoiOf (42 / 19) (daysToExpAt 4 3 (1 / 2)) = 0) := by
  have hf0 : daysToExpAt 4 4 0 = 0 := by
    rw [daysToExpAt_eq 4 4 0 le_rfl (by norm_num)]; norm_num
  have hf : daysToExpAt 4 4 (1 / 2) = -1 := by
    rw [daysToExpAt_eq 4 4 (1 / 2) (by norm_num) (by norm_num)]; norm_num
  have ht : daysToExpAt 4 3 (1 / 2) = 0 := by
    rw [daysToExpAt_eq 4 3 (1 / 2) (by norm_num) (by norm_num)]; norm_num
  refine ⟨⟨by decide, by decide, hf0, hf, ?_, ?_⟩, by decide, by decide, ht, ?_, ?_⟩
  · rw [hf]; decide
  · rw [hf]; norm_num [annRoiOf]
  · rw [ht]; decide
  · rw [ht]; norm_num [annRoiOf]

/-- C9 (amended): with the run instant `today + tod` (`tod ∈ [0,1)` the
elapsed fraction of the day), line 68's floored datetime difference for any
generated expiration is at least −1; it is nonnegative at a midnight run and
strictly positive whenever the reference day is neither a Friday nor a
Thursday.  When it fails to be positive, the expiration is the first
generated date and the reference day is a Friday (0 at midnight, −1 later)
or a Thursday after midnight (0) — so the ROI calculator's
annualized-ROI-equals-0 fallback branch is reachable, and returns 0 there. -/
theorem generatedDaysToExp (n : Nat) (today e : ℤ) (tod : ℚ)
    (he : e ∈ getWeeklyExpirations n today) (h0 : 0 ≤ tod) (h1 : tod < 1) :
    -1 ≤ daysToExpAt e today tod ∧
    (tod = 0 → 0 ≤ daysToExpAt e today tod) ∧
    (weekday today ≠ 4 → weekday today ≠ 3 → 0 < daysToExpAt e today tod) ∧
    (daysToExpAt e today tod ≤ 0 →
      e = firstFridayOnOrAfter today ∧
      (weekday today = 4 ∨ (weekday today = 3 ∧ 0 < tod))) ∧
    (∀ a : ℚ, daysToExpAt e today tod ≤ 0 →
      annRoiOf a (daysToExpAt e today tod) = 0) := by
  simp only [getWeeklyExpirations, List.mem_map, List.mem_range] at he
  obtain ⟨i, _, rfl⟩ := he
  have hd := daysToExpAt_eq (firstFridayOnOrAfter today + 7 * (i : ℤ)) today tod h0 h1
  have hann : ∀ a : ℚ,
      daysToExpAt (firstFridayOnOrAfter today + 7 * (i : ℤ)) today tod ≤ 0 →
      annRoiOf a (daysToExpAt (firstFridayOnOrAfter today + 7 * (i : ℤ)) today tod)
        = 0 := by
    intro a hle
    rw [annRoiOf, if_neg (not_lt.mpr hle)]
  by_cases htz : tod = 0
  · rw [if_pos htz] at hd
    rw [hd]
    refine ⟨?_, fun _ => ?_, fun h4 h3 => ?_, fun hle => ⟨?_, Or.inl ?_⟩, ?_⟩
    · simp only [firstFridayOnOrAfter, weekday]; omega
    · simp only [firstFridayOnOrAfter, weekday]; omega
    · simp only [firstFridayOnOrAfter, weekday] at h4 h3 ⊢; omega
    · simp only [firstFridayOnOrAfter, weekday] at hle ⊢; omega
    · simp only [firstFridayOnOrAfter, weekday] at hle ⊢; omega
    · rw [← hd]; exact hann
  · have htpos : 0 < tod := lt_of_le_of_ne h0 (Ne.symm htz)
    rw [if_neg htz] at hd
    rw [hd]
    refine ⟨?_, fun h => absurd h htz, fun h4 h3 => ?_, fun hle => ⟨?_, ?_⟩, ?_⟩
    · simp only [firstFridayOnOrAfter, weekday]; omega
    · simp only [firstFridayOnOrAfter, weekday] at h4 h3 ⊢; omega
    · simp only [firstFridayOnOrAfter, weekday] at hle ⊢; omega
    · have hg : (4 - today % 7) % 7 = 0 ∨ (4 - today % 7) % 7 = 1 := by
        simp only [firstFridayOnOrAfter, weekday] at hle; omega
      rcases hg with hg | hg
      · exact Or.inl (by simp only [weekday]; omega)
      · exact Or.inr ⟨by simp only [weekday]; omega, htpos⟩
    · rw [← hd]; exact hann

theorem generatedDaysToExp_witness :
    ((4 : ℤ) ∈ getWeeklyExpirations 1 0) ∧ (0 ≤ (1 : ℚ) / 2) ∧ ((1 : ℚ) / 2 < 1) ∧
    (-1 ≤ daysToExpAt 4 0 (1 / 2) ∧
      ((1 : ℚ) / 2 = 0 → 0 ≤ daysToExpAt 4 0 (1 / 2)) ∧
      (weekday 0 ≠ 4 → weekday 0 ≠ 3 → 0 < daysToExpAt 4 0 (1 / 2)) ∧
      (daysToExpAt 4 0 (1 / 2) ≤ 0 →
        (4 : ℤ) = firstFridayOnOrAfter 0 ∧
        (weekday 0 = 4 ∨ (weekday 0 = 3 ∧ 0 < (1 : ℚ) / 2))) ∧
      (∀ a : ℚ, daysToExpAt 4 0 (1 / 2) ≤ 0 →
        annRoiOf a (daysToExpAt 4 0 (1 / 2)) = 0)) :=
  ⟨by decide, by norm_num, by norm_num,
    generatedDaysToExp 1 0 4 (1 / 2) (by decide) (by norm_num) (by norm_num)⟩

/-! ### C7 — Failure isolation -/

theorem filterMap_eq_filterMap_filter {α β : Type} (f : α → Option β)
    (p : α → Bool) :
    ∀ l : List α, (∀ a ∈ l, p a = false → f a = none) →
      l.filterMap f = (l.filter p).filterMap f := by
  intro l
  induction l with
  | nil => intro _; rfl
  | cons x xs ih =>
    intro h
    have htail := ih (fun a ha hpa => h a (List.mem_cons_of_mem _ ha) hpa)
    cases hpx : p x with
    | false =>
      rw [List.filterMap_cons, h x (List.mem_cons_self _ _) hpx,
        List.filter_cons_of_neg (by simp [hpx]), htail]
    | true =>
      rw [List.filterMap_cons, List.filter_cons_of_pos hpx, List.filterMap_cons,
        htail]

theorem flatMap_eq_flatMap_filter {α β : Type} (f : α → List β) (p : α → Bool) :
    ∀ l : List α, (∀ a ∈ l, p a = false → f a = []) →
      l.flatMap f = (l.filter p).flatMap f := by
  intro l
  induction l with
  | nil => intro _; rfl
  | cons x xs ih =>
    intro h
    have htail := ih (fun a ha hpa => h a (List.mem_cons_of_mem _ ha) hpa)
    cases hpx : p x with
    | false =>
      rw [List.flatMap_cons, h x (List.mem_cons_self _ _) hpx,
        List.filter_cons_of_neg (by simp [hpx]), htail, List.nil_append]
    | true =>
      rw [List.flatMap_cons, List.filter_cons_of_pos hpx, List.flatMap_cons,
        htail]

/-- C7: a data fetch failure for a ticker makes that ticker contribute no
rows and leaves every other ticker's contribution unchanged (failed tickers
can be removed from the run without changing the output); a chain fetch
failure for one expiration only removes that expiration (failed expirations
can be removed from the list without changing the ticker's rows); no failure
escapes — the functions are total and return lists. -/
theorem failureIsolation (g : Gateway) (tickers : List String) (t : String)
    (exps : List ℤ) (s : Strategy) (m lo hi : ℚ) (today : ℤ) :
    (g.tickerData t = none → analyzeOptions g t exps s m lo hi today = []) ∧
    analyzeOptions g t exps s m lo hi today
      = analyzeOptions g t (exps.filter (fun e => (g.optChain t e).isSome))
          s m lo hi today ∧
    runAnalysis g tickers exps s m lo hi today
      = runAnalysis g (tickers.filter (fun tk => (g.tickerData tk).isSome))
          exps s m lo hi today := by
  refine ⟨fun h => by simp [analyzeOptions, h], ?_, ?_⟩
  · unfold analyzeOptions
    cases hg : g.tickerData t with
    | none => rfl
    | some ip =>
      obtain ⟨info, price⟩ := ip
      dsimp only
      by_cases hb : price < lo ∨ hi < price
      · rw [if_pos hb, if_pos hb]
      · rw [if_neg hb, if_neg hb]
        apply filterMap_eq_filterMap_filter
        intro e _ hne
        have hnone : g.optChain t e = none := by
          cases hoc : g.optChain t e with
          | none => rfl
          | some ch => rw [hoc] at hne; cases hne
        simp [processExpiration, hnone]
  · unfold runAnalysis
    congr 1
    apply flatMap_eq_flatMap_filter
    intro tk _ hn
    have hnone : g.tickerData tk = none := by
      cases htd : g.tickerData tk with
      | none => rfl
      | some ip => rw [htd] at hn; cases hn
    simp [analyzeOptions, hnone]

theorem failureIsolation_witness :
    gwExample.tickerData "OTHER" = none ∧
    analyzeOptions gwExample "OTHER" [30] .cashSecuredPut 5 0 1000 0 = [] := by
  have h : gwExample.tickerData "OTHER" = none := by simp [gwExample]
  exact ⟨h,
    (failureIsolation gwExample ["OTHER"] "OTHER" [30] .cashSecuredPut 5 0 1000 0).1 h⟩

/-! ### C4 — Result ordering -/

theorem charsLt_nil_right : ∀ a : List Char, charsLt a [] = false := by
  intro a; cases a <;> rfl

theorem charsLt_irrefl : ∀ a : List Char, charsLt a a = false := by
  intro a
  induction a with
  | nil => rfl
  | cons x xs ih => simp [charsLt, ih]

theorem charsLt_false_trans :
    ∀ a b c : List Char, charsLt a b = false → charsLt b c = false →
      charsLt a c = false := by
  intro a
  induction a with
  | nil =>
    intro b c h1 h2
    cases b with
    | nil => exact h2
    | cons y ys =>
      cases c with
      | nil => rfl
      | cons z zs => exact absurd h1 (by simp [charsLt])
  | cons x xs ih =>
    intro b c h1 h2
    cases b with
    | nil =>
      cases c with
      | nil => exact charsLt_nil_right _
      | cons z zs => exact absurd h2 (by simp [charsLt])
    | cons y ys =>
      cases c with
      | nil => exact charsLt_nil_right _
      | cons z zs =>
        simp only [charsLt] at h1 h2 ⊢
        by_cases hxy : x.toNat < y.toNat
        · simp [hxy] at h1
        · by_cases hyz : y.toNat < z.toNat
          · simp [hyz] at h2
          · by_cases hxz : x.toNat < z.toNat
            · omega
            · rw [if_neg hxz]
              by_cases hzx : z.toNat < x.toNat
              · simp [hzx]
              · have hyx : ¬ y.toNat < x.toNat := by omega
                have hzy : ¬ z.toNat < y.toNat := by omega
                rw [if_neg hxy, if_neg hyx] at h1
                rw [if_neg hyz, if_neg hzy] at h2
                rw [if_neg hzx]
                exact ih ys zs h1 h2

theorem charsLt_asymm :
    ∀ a b : List Char, charsLt a b = true → charsLt b a = false := by
  intro a
  induction a with
  | nil =>
    intro b _
    exact charsLt_nil_right b
  | cons x xs ih =>
    intro b hab
    cases b with
    | nil => exact absurd hab (by simp [charsLt_nil_right])
    | cons y ys =>
      simp only [charsLt] at hab ⊢
      by_cases hxy : x.toNat < y.toNat
      · have hyx : ¬ y.toNat < x.toNat := by omega
        rw [if_neg hyx, if_pos hxy]
      · by_cases hyx : y.toNat < x.toNat
        · rw [if_neg hxy, if_pos hyx] at hab
          cases hab
        · rw [if_neg hxy, if_neg hyx] at hab
          rw [if_neg hyx, if_neg hxy]
          exact ih ys hab

theorem strLt_irrefl (a : String) : strLt a a = false := charsLt_irrefl a.data

theorem strLt_false_trans {a b c : String} (h1 : strLt a b = false)
    (h2 : strLt b c = false) : strLt a c = false :=
  charsLt_false_trans a.data b.data c.data h1 h2

theorem strLt_asymm {a b : String} (h : strLt a b = true) : strLt b a = false :=
  charsLt_asymm a.data b.data h

/-- The output order of `sort_values(..., ascending=False)` on the stored
string column: no row is followed by one with a strictly greater string. -/
def rowsDesc (l : List ResultRow) : Prop :=
  l.Pairwise (fun a b => strLt a.annRoi b.annRoi = false)

theorem insertRowDesc_perm (r : ResultRow) :
    ∀ l : List ResultRow, (insertRowDesc r l).Perm (r :: l) := by
  intro l
  induction l with
  | nil => exact List.Perm.refl _
  | cons x xs ih =>
    cases h : strLt r.annRoi x.annRoi with
    | true =>
      rw [insertRowDesc, if_pos h]
      exact (ih.cons x).trans (List.Perm.swap r x xs)
    | false =>
      rw [insertRowDesc, if_neg (by simp [h])]

theorem sortRowsDesc_perm :
    ∀ l : List ResultRow, (sortRowsDesc l).Perm l := by
  intro l
  induction l with
  | nil => exact List.Perm.refl _
  | cons x xs ih =>
    rw [sortRowsDesc]
    exact (insertRowDesc_perm x (sortRowsDesc xs)).trans (ih.cons x)

theorem insertRowDesc_sorted (r : ResultRow) :
    ∀ l : List ResultRow, rowsDesc l → rowsDesc (insertRowDesc r l) := by
  intro l
  induction l with
  | nil => intro _; simp [insertRowDesc, rowsDesc]
  | cons x xs ih =>
    intro hl
    have hx := (List.pairwise_cons.mp hl).1
    have hxs := (List.pairwise_cons.mp hl).2
    cases h : strLt r.annRoi x.annRoi with
    | true =>
      rw [insertRowDesc, if_pos h]
      refine List.pairwise_cons.mpr ⟨?_, ih hxs⟩
      intro b hb
      rcases List.mem_cons.mp ((insertRowDesc_perm r xs).mem_iff.mp hb) with rfl | hb'
      · exact strLt_asymm h
      · exact hx b hb'
    | false =>
      rw [insertRowDesc, if_neg (by simp [h])]
      refine List.pairwise_cons.mpr ⟨?_, hl⟩
      intro b hb
      rcases List.mem_cons.mp hb with rfl | hb'
      · exact h
      · exact strLt_false_trans h (hx b hb')

theorem sortRowsDesc_sorted : ∀ l : List ResultRow, rowsDesc (sortRowsDesc l) := by
  intro l
  induction l with
  | nil => simp [sortRowsDesc, rowsDesc]
  | cons x xs ih => exact insertRowDesc_sorted x (sortRowsDesc xs) ih

theorem insertRowDesc_filter (r : ResultRow) (k : String) :
    ∀ l : List ResultRow,
      (insertRowDesc r l).filter (fun x => x.annRoi == k)
        = if r.annRoi == k then r :: l.filter (fun x => x.annRoi == k)
          else l.filter (fun x => x.annRoi == k) := by
  intro l
  induction l with
  | nil =>
    rw [insertRowDesc]
    cases hrk : r.annRoi == k <;> simp [List.filter, hrk]
  | cons x xs ih =>
    cases h : strLt r.annRoi x.annRoi with
    | false =>
      rw [insertRowDesc, if_neg (by simp [h])]
      cases hrk : r.annRoi == k <;> simp [List.filter_cons, hrk]
    | true =>
      rw [insertRowDesc, if_pos h]
      cases hxk : x.annRoi == k with
      | false =>
        rw [List.filter_cons_of_neg (by simp [hxk]), ih,
          List.filter_cons_of_neg (by simp [hxk])]
      | true =>
        have hxk' : x.annRoi = k := by simpa using hxk
        have hrk : (r.annRoi == k) = false := by
          cases hrk : r.annRoi == k with
          | false => rfl
          | true =>
            have hrk' : r.annRoi = k := by simpa using hrk
            rw [hrk', ← hxk', strLt_irrefl] at h
            cases h
        rw [List.filter_cons_of_pos (by simp [hxk']), ih, if_neg (by simp [hrk]),
          List.filter_cons_of_pos (by simp [hxk']), if_neg (by simp [hrk])]

theorem sortRowsDesc_filter (k : String) :
    ∀ l : List ResultRow,
      (sortRowsDesc l).filter (fun x => x.annRoi == k)
        = l.filter (fun x => x.annRoi == k) := by
  intro l
  induction l with
  | nil => rfl
  | cons x xs ih =>
    rw [sortRowsDesc, insertRowDesc_filter]
    cases hxk : x.annRoi == k with
    | true => rw [if_pos (by simp at hxk; simp [hxk]), ih,
        List.filter_cons_of_pos (by simp [hxk])]
    | false => rw [if_neg (by simp [hxk]), ih,
        List.filter_cons_of_neg (by simp [hxk])]

/-- C4 (amended): the final output is a permutation of the concatenated rows,
ordered descending by the *stored* annualized-ROI column — which the code
stores as the 2-decimal `fmt` string, so the order is the descending Python
string (lexicographic) order of those strings, not the descending numeric
order of the ROI values; rows with equal stored keys keep their encounter
order (the filter of the output at any key value equals the filter of the
concatenation). -/
theorem resultOrdering_amended (g : Gateway) (tickers : List String)
    (exps : List ℤ) (s : Strategy) (m lo hi : ℚ) (today : ℤ) :
    (runAnalysis g tickers exps s m lo hi today).Perm
        (tickers.flatMap (fun t => analyzeOptions g t exps s m lo hi today)) ∧
    rowsDesc (runAnalysis g tickers exps s m lo hi today) ∧
    (∀ k : String,
      (runAnalysis g tickers exps s m lo hi today).filter (fun x => x.annRoi == k)
        = (tickers.flatMap (fun t => analyzeOptions g t exps s m lo hi today)).filter
            (fun x => x.annRoi == k)) :=
  ⟨sortRowsDesc_perm _, sortRowsDesc_sorted _, fun k => sortRowsDesc_filter k _⟩

/-- A two-ticker gateway: "AAA" yields annualized ROI 25.61 %, "BBB" yields
9.00 %, both at the 365-day expiration, so the numeric descending order is
AAA before BBB. -/
def gwTwo : Gateway :=
  { tickerData := fun t => if t = "AAA" ∨ t = "BBB" then some (emptyInfo, 100) else none
    optChain := fun t _ =>
      if t = "AAA" then some ⟨[⟨50, none, none, 2561 / 200⟩], []⟩
      else if t = "BBB" then some ⟨[⟨50, none, none, 9 / 2⟩], []⟩
      else none }

def rowAAA : ResultRow :=
  buildRow "AAA" .cashSecuredPut emptyInfo 100 50 (2561 / 200) (2561 / 100)
    (2561 / 100) 365 365

def rowBBB : ResultRow :=
  buildRow "BBB" .cashSecuredPut emptyInfo 100 50 (9 / 2) 9 9 365 365

theorem selGwA : selectCandidate .cashSecuredPut 100 5 [⟨50, none, none, 2561 / 200⟩]
    = some ⟨50, none, none, 2561 / 200⟩ := by
  norm_num [selectCandidate, targetStrike_ex, eligibleB, List.filter_cons,
    decide_eq_true_eq]

theorem selGwB : selectCandidate .cashSecuredPut 100 5 [⟨50, none, none, 9 / 2⟩]
    = some ⟨50, none, none, 9 / 2⟩ := by
  norm_num [selectCandidate, targetStrike_ex, eligibleB, List.filter_cons,
    decide_eq_true_eq]

theorem anaGwA : analyzeOptions gwTwo "AAA" [365] .cashSecuredPut 5 0 1000 0
    = [rowAAA] := by
  norm_num [analyzeOptions, gwTwo, processExpiration, sideOf, roiCalc, annRoiOf,
    selGwA, premiumOf, truthy, rowAAA, buildRow, emptyInfo,
    List.filterMap_cons, List.filterMap_nil]

theorem gwTwo_td_B : gwTwo.tickerData "BBB" = some (emptyInfo, 100) := by
  rw [gwTwo]
  dsimp only
  rw [if_pos (show ("BBB" : String) = "AAA" ∨ ("BBB" : String) = "BBB" by decide)]

theorem gwTwo_oc_B : gwTwo.optChain "BBB" 365
    = some ⟨[⟨50, none, none, 9 / 2⟩], []⟩ := by
  rw [gwTwo]
  dsimp only
  rw [if_neg (show ¬ ("BBB" : String) = "AAA" by decide), if_pos rfl]

theorem anaGwB : analyzeOptions gwTwo "BBB" [365] .cashSecuredPut 5 0 1000 0
    = [rowBBB] := by
  norm_num [analyzeOptions, gwTwo_td_B, processExpiration, gwTwo_oc_B, sideOf,
    roiCalc, annRoiOf, selGwB, premiumOf, truthy, rowBBB, buildRow, emptyInfo,
    List.filterMap_cons, List.filterMap_nil]

theorem rowAAA_ann : rowAAA.annRoi = "25.61" := by
  have h : fmt (2561 / 100) = "25.61" :=
    (fmt_eq_of (n := 2561) (by norm_num [roundHalfEven])).trans (by decide)
  simp [rowAAA, buildRow, h]

theorem rowBBB_ann : rowBBB.annRoi = "9.00" := by
  have h : fmt (9 : ℚ) = "9.00" :=
    (fmt_eq_of (n := 900) (by norm_num [roundHalfEven])).trans (by decide)
  simp [rowBBB, buildRow, h]

theorem runAnalysis_gwTwo :
    runAnalysis gwTwo ["AAA", "BBB"] [365] .cashSecuredPut 5 0 1000 0
      = [rowBBB, rowAAA] := by
  have hlt : strLt rowAAA.annRoi rowBBB.annRoi = true := by
    rw [rowAAA_ann, rowBBB_ann]; decide
  rw [runAnalysis, List.flatMap_cons, List.flatMap_cons, List.flatMap_nil,
    anaGwA, anaGwB]
  simp [sortRowsDesc, insertRowDesc, hlt]

/-- C4 is false on the code: the sort key is the *stored* annualized-ROI
column, a 2-decimal string, and `sort_values` compares those strings — so a
run with rows at 25.61 % and 9.00 % outputs the 9.00 % row first, because
`"9.00" > "25.61"` as strings, although `9 < 25.61` numerically: the final
output is not in descending numeric order of annualized ROI. -/
theorem resultOrdering_cex :
    runAnalysis gwTwo ["AAA", "BBB"] [365] .cashSecuredPut 5 0 1000 0
      = [rowBBB, rowAAA] ∧
    rowBBB.annRoi = "9.00" ∧
    rowAAA.annRoi = "25.61" ∧
    (roiCalc ⟨50, none, none, 9 / 2⟩ 365).annRoi = 9 ∧
    (roiCalc ⟨50, none, none, 2561 / 200⟩ 365).annRoi = 2561 / 100 ∧
    (9 : ℚ) < 2561 / 100 := by
  refine ⟨runAnalysis_gwTwo, rowBBB_ann, rowAAA_ann, ?_, ?_, by norm_num⟩
  · simp only [roiCalc, premiumOf, truthy, annRoiOf]
    norm_num
  · simp only [roiCalc, premiumOf, truthy, annRoiOf]
    norm_num

/-! ### C10 — Missing-fundamentals defaults -/

/-- C10: row assembly with missing fundamentals keys falls back to the
defaults: `"0.00"` for the numeric columns (dividend yield scaled after
defaulting), `"N/A"` for the text columns, and `"Miss"` for the EPS trend. -/
theorem missingFundamentalsDefaults (ticker : String) (s : Strategy)
    (info : TickerInfo) (price strike premium absR annR : ℚ) (days e : ℤ) :
    (info.targetMeanPrice = none →
      (buildRow ticker s info price strike premium absR annR days e).analystTarget = "0.00") ∧
    (info.dividendYield = none →
      (buildRow ticker s info price strike premium absR annR days e).divYield = "0.00") ∧
    (info.trailingEps = none →
      (buildRow ticker s info price strike premium absR annR days e).epsTTM = "0.00") ∧
    (info.recommendationMean = none →
      (buildRow ticker s info price strike premium absR annR days e).overallScore = "0.00") ∧
    (info.earningsQuarterlyGrowth = none →
      (buildRow ticker s info price strike premium absR annR days e).epsTrend = "Miss") ∧
    (info.earningsDate = none →
      (buildRow ticker s info price strike premium absR annR days e).nextEarnings = "N/A") ∧
    (info.recommendationKey = none →
      (buildRow ticker s info price strike premium absR annR days e).recommendation = "N/A") ∧
    (info.sector = none →
      (buildRow ticker s info price strike premium absR annR days e).sector = "N/A") ∧
    (info.industry = none →
      (buildRow ticker s info price strike premium absR annR days e).industry = "N/A") := by
  refine ⟨fun h => ?_, fun h => ?_, fun h => ?_, fun h => ?_, fun h => ?_,
    fun h => ?_, fun h => ?_, fun h => ?_, fun h => ?_⟩
  · simp [buildRow, h, fmt_zero]
  · simp [buildRow, h, fmt_zero]
  · simp [buildRow, h, fmt_zero]
  · simp [buildRow, h, fmt_zero]
  · simp [buildRow, h]
  · simp [buildRow, h]
  · simp [buildRow, h]
  · simp [buildRow, h]
  · simp [buildRow, h]

theorem missingFundamentalsDefaults_witness :
    (buildRow "XYZ" .cashSecuredPut emptyInfo 100 95 2 3 4 30 30).analystTarget = "0.00" ∧
    (buildRow "XYZ" .cashSecuredPut emptyInfo 100 95 2 3 4 30 30).divYield = "0.00" ∧
    (buildRow "XYZ" .cashSecuredPut emptyInfo 100 95 2 3 4 30 30).epsTTM = "0.00" ∧
    (buildRow "XYZ" .cashSecuredPut emptyInfo 100 95 2 3 4 30 30).overallScore = "0.00" ∧
    (buildRow "XYZ" .cashSecuredPut emptyInfo 100 95 2 3 4 30 30).epsTrend = "Miss" ∧
    (buildRow "XYZ" .cashSecuredPut emptyInfo 100 95 2 3 4 30 30).nextEarnings = "N/A" ∧
    (buildRow "XYZ" .cashSecuredPut emptyInfo 100 95 2 3 4 30 30).recommendation = "N/A" ∧
    (buildRow "XYZ" .cashSecuredPut emptyInfo 100 95 2 3 4 30 30).sector = "N/A" ∧
    (buildRow "XYZ" .cashSecuredPut emptyInfo 100 95 2 3 4 30 30).industry = "N/A" := by
  have h := missingFundamentalsDefaults "XYZ" .cashSecuredPut emptyInfo 100 95 2 3 4 30 30
  exact ⟨h.1 rfl, h.2.1 rfl, h.2.2.1 rfl, h.2.2.2.1 rfl, h.2.2.2.2.1 rfl,
    h.2.2.2.2.2.1 rfl, h.2.2.2.2.2.2.1 rfl, h.2.2.2.2.2.2.2.1 rfl, h.2.2.2.2.2.2.2.2 rfl⟩
